import Mathlib

/-!
# Verification of the Petango synchronization engine

A shallow embedding of the pet-synchronization program (`run.py`): the local
record store, the reconciler (`sync_database`), the query/filter engine
(`fetch_filtered_pets_from_db`), the spreadsheet mirror (`update_google_sheet`),
the orchestration routine (`_perform_sync_and_update_all`) and the GUI
state machine around the sync buttons and the hourly scheduler.

The SQLite table `pets` is modelled as a list of rows.  The wall-clock read
`datetime.now(timezone.utc)` that the code performs once per run (line 210)
is modelled as an explicit `ts : Nat` input of the run.  The two possible
results of the network fetch (`fetch_animals` is called once and, when the
result is empty, exactly once more) are modelled as the explicit inputs
`fetch1 fetch2 : List Animal`.  External I/O outcomes (the Google-Sheets
push) are modelled by an oracle value.
-/

namespace PetSync

/-- One record parsed from the remote page by `fetch_animals`: a dictionary
with key `id` (the code skips items whose id is missing or empty, i.e. falsy;
we model the falsy case as the empty string) and optional descriptive fields. -/
structure Animal where
  id : String
  name : Option String
  species : Option String
  breed : Option String
  sexSN : Option String
  age : Option String
  location : Option String
  detail_id : Option String
  photo_url : Option String
deriving DecidableEq, Repr

/-- One row of the `pets` table (schema in `init_db`):
`id TEXT PRIMARY KEY`, descriptive `TEXT` columns (nullable),
`last_seen TIMESTAMP`, `archived INTEGER DEFAULT 0` (only 0/1 are ever
stored, modelled as `Bool`). -/
structure Pet where
  id : String
  name : Option String
  species : Option String
  breed : Option String
  sexSN : Option String
  age : Option String
  location : Option String
  detail_id : Option String
  photo_url : Option String
  last_seen : Nat
  archived : Bool
deriving DecidableEq, Repr

/-- The row written for an animal by the INSERT (lines 239-243) and by the
UPDATE (lines 232-236) of `sync_database`: every descriptive field is taken
from the fetched record, `last_seen` is the run's sync time and
`archived = 0`. -/
def petFromAnimal (ts : Nat) (a : Animal) : Pet :=
  { id := a.id, name := a.name, species := a.species, breed := a.breed,
    sexSN := a.sexSN, age := a.age, location := a.location,
    detail_id := a.detail_id, photo_url := a.photo_url,
    last_seen := ts, archived := false }

/-- `active_ids = {a['id'] for a in animals_fetched if a.get('id')}`
(line 222): the ids of the fetched animals whose id is truthy.  Only
membership in this set is ever used, so a list models the Python set. -/
def validIds : List Animal → List String
  | [] => []
  | a :: rest => if a.id = "" then validIds rest else a.id :: validIds rest

/-- One iteration of the per-animal loop of `sync_database` (lines 223-244):
skip animals with a falsy id; otherwise check row existence by id
(`SELECT id FROM pets WHERE id = ?`) and either UPDATE every field of the
matching row (counting `updated`) or INSERT a fresh row (counting
`inserted`).  The accumulator is `(store, inserted_count, updated_count)`. -/
def upsertStep (ts : Nat) (acc : List Pet × Nat × Nat) (a : Animal) :
    List Pet × Nat × Nat :=
  if a.id = "" then acc
  else if ∃ q ∈ acc.1, q.id = a.id then
    (acc.1.map (fun p => if p.id = a.id then petFromAnimal ts a else p),
     acc.2.1, acc.2.2 + 1)
  else
    (acc.1 ++ [petFromAnimal ts a], acc.2.1 + 1, acc.2.2)

/-- The effect of the archival UPDATE (line 248) on one row:
`SET archived = 1, last_seen = ? WHERE id NOT IN (active) AND archived = 0`. -/
def archiveF (ts : Nat) (ids : List String) (p : Pet) : Pet :=
  if p.id ∈ ids ∨ p.archived = true then p
  else { p with archived := true, last_seen := ts }

/-- The archival UPDATE of `sync_database` (lines 246-251): flags every
still-unarchived row whose id is not among the active ids, stamping the
run's sync time; the second component is the statement's rowcount. -/
def archiveMissing (ts : Nat) (ids : List String) (st : List Pet) :
    List Pet × Nat :=
  (st.map (archiveF ts ids),
   (st.filter (fun p => decide (¬ (p.id ∈ ids ∨ p.archived = true)))).length)

/-- The database part of `sync_database` (lines 218-256), run on a non-empty
fetched snapshot `S`: the per-animal upsert loop followed by the archival
step, which is executed only when `active_ids` is non-empty (line 246).
Returns `(store, inserted, updated, archived)`. -/
def reconcile (ts : Nat) (S : List Animal) (st : List Pet) :
    List Pet × Nat × Nat × Nat :=
  let r := S.foldl (upsertStep ts) (st, 0, 0)
  if (validIds S).isEmpty then (r.1, r.2.1, r.2.2, 0)
  else
    let ar := archiveMissing ts (validIds S) r.1
    (ar.1, r.2.1, r.2.2, ar.2)

/-- The error raised by `sync_database` when the snapshot is still empty
after the retry (`ConnectionError`, line 217). -/
inductive SyncError
  | connectionError
deriving DecidableEq, Repr

/-- The snapshot `sync_database` works on (lines 211-214): the first fetch
result, or the second one when the first was empty. -/
def fetched (fetch1 fetch2 : List Animal) : List Animal :=
  if fetch1.isEmpty then fetch2 else fetch1

/-- How many times `sync_database` calls `fetch_animals` (lines 211-214):
once, plus exactly one retry when the first result was empty — never more. -/
def fetch_attempts (fetch1 : List Animal) : Nat :=
  if fetch1.isEmpty then 2 else 1

/-- `sync_database` (lines 209-256).  `ts` is the single clock read of
line 210; `fetch1`/`fetch2` are the results of the at-most-two
`fetch_animals` calls.  When the snapshot is empty after the retry the
function raises `ConnectionError` before any database statement runs, so the
store is returned unchanged together with the error; otherwise the
reconciliation runs and the `(inserted, updated, archived)` counters are
returned. -/
def sync_database (ts : Nat) (fetch1 fetch2 : List Animal) (st : List Pet) :
    List Pet × Except SyncError (Nat × Nat × Nat) :=
  let animals := fetched fetch1 fetch2
  if animals.isEmpty then (st, Except.error SyncError.connectionError)
  else
    let r := reconcile ts animals st
    (r.1, Except.ok (r.2.1, r.2.2.1, r.2.2.2))

/-! ## Query/filter engine (`fetch_filtered_pets_from_db`, lines 262-302) -/

/-- SQLite's `LOWER`: lowercase the ASCII letters, leave everything else. -/
def lowerChar (c : Char) : Char :=
  if 65 ≤ c.toNat ∧ c.toNat ≤ 90 then Char.ofNat (c.toNat + 32) else c

/-- `LOWER` applied to a whole string (as its character list). -/
def lowerChars (s : List Char) : List Char :=
  s.map lowerChar

/-- Whether the character list `needle` starts `hay` (used to model SQL
`LIKE` pattern matching on the decoded strings). -/
def startsWithChars : List Char → List Char → Bool
  | [], _ => true
  | _ :: _, [] => false
  | c :: cs, d :: ds => c = d && startsWithChars cs ds

/-- Whether `needle` occurs contiguously inside `hay`. -/
def containsChars (needle : List Char) : List Char → Bool
  | [] => startsWithChars needle []
  | d :: ds => startsWithChars needle (d :: ds) || containsChars needle ds

/-- `LOWER(col) LIKE LOWER('%term%')` on a nullable column: SQL NULL never
matches; otherwise a case-insensitive substring test. -/
def likeLower (term : String) : Option String → Bool
  | none => false
  | some s => containsChars (lowerChars term.data) (lowerChars s.data)

/-- The search condition (line 275): the term matches `id`, `name`,
`species` or `breed`, case-insensitively, as a substring. -/
def matchesSearch (term : String) (p : Pet) : Bool :=
  likeLower term (some p.id) || likeLower term p.name ||
    likeLower term p.species || likeLower term p.breed

/-- `LOWER(species) = LOWER(?)` (line 278); NULL never matches. -/
def matchesSpecies (f : String) : Option String → Bool
  | none => false
  | some s => lowerChars s.data = lowerChars f.data

/-- The archived condition (lines 283-286): `"Active"` keeps `archived = 0`,
`"Archived"` keeps `archived = 1`, anything else adds no condition. -/
def archMatch (m : String) (p : Pet) : Bool :=
  if m = "Active" then !p.archived
  else if m = "Archived" then p.archived
  else true

/-- The WHERE clause built by `fetch_filtered_pets_from_db` (lines 270-289):
each condition is added only when its filter is set (non-empty search,
species/sex different from `"All"` and from the empty string), and a row must
satisfy all added conditions. -/
def rowMatches (search species sex archMode : String) (p : Pet) : Bool :=
  (decide (search = "") || matchesSearch search p)
    && (decide (species = "All") || decide (species = "")
          || matchesSpecies species p.species)
    && (decide (sex = "All") || decide (sex = "")
          || matchesSpecies sex p.sexSN)
    && archMatch archMode p

/-- Lexicographic code-point order on character lists: SQLite's default
BINARY collation on TEXT (UTF-8 byte order coincides with code-point
order). -/
def charsLe : List Char → List Char → Bool
  | [], _ => true
  | _ :: _, [] => false
  | c :: cs, d :: ds => if c = d then charsLe cs ds else decide (c < d)

/-- `ORDER BY name ASC` on a nullable TEXT column: SQL NULLs sort first, and
non-NULL strings compare with the BINARY collation. -/
def nameLeB : Option String → Option String → Bool
  | none, _ => true
  | some _, none => false
  | some x, some y => charsLe x.data y.data

/-- `ORDER BY archived ASC, name ASC` (line 290) as a total preorder on rows:
unarchived (0) before archived (1), then by name. -/
def petLeB (p q : Pet) : Bool :=
  if p.archived = q.archived then nameLeB p.name q.name
  else if p.archived = false then true else false

/-- `fetch_filtered_pets_from_db` (lines 262-302): the rows satisfying the
built WHERE clause, sorted by `(archived ASC, name ASC)`.  The SQL leaves
the relative order of ties unspecified; a stable insertion sort is one
implementation of it. -/
def fetch_filtered_pets_from_db
    (search species sex archMode : String) (st : List Pet) : List Pet :=
  List.insertionSort (fun p q => petLeB p q = true)
    (st.filter (rowMatches search species sex archMode))

/-! ## Google-Sheets mirror (`update_google_sheet`, lines 305-350) -/

/-- The sheet-id constant of the source (line 52). -/
def GOOGLE_SHEET_ID : String := "1jO9GowDUU6GzSHA39zbR7beK3GgW9bAsY71LIftdCyM"

/-- The header row written by `update_google_sheet` (line 321). -/
def SHEET_HEADERS : List String :=
  ["ID", "Name", "Species", "Breed", "Sex/SN", "Age", "Location",
   "Detail ID", "Photo URL", "Archived"]

/-- One spreadsheet row built from a pet (lines 324-329): missing fields
become the empty string, `archived` becomes `Yes`/`No`. -/
def petRow (p : Pet) : List String :=
  [p.id, p.name.getD "", p.species.getD "", p.breed.getD "",
   p.sexSN.getD "", p.age.getD "", p.location.getD "", p.detail_id.getD "",
   p.photo_url.getD "", if p.archived then "Yes" else "No"]

/-- Outcome of the external Google-Sheets interaction: either the clear and
update both succeed, or some call in the `try` block raises. -/
inductive PushOutcome
  | success
  | failure
deriving DecidableEq, Repr

/-- `update_google_sheet` (lines 305-350).  A missing/placeholder sheet id
returns `False` at once; an empty row list returns `True` **before** any
API call, leaving the destination sheet untouched (lines 310-312); otherwise
the sheet is cleared and fully rewritten with a header plus one row per pet.
On an external failure the function returns `False`; the destination's exact
content at that point depends on where the I/O failed and is modelled as
unchanged (no claim below depends on it). -/
def update_google_sheet (api : PushOutcome) (pets_data : List Pet)
    (sheet : List (List String)) : Bool × List (List String) :=
  if GOOGLE_SHEET_ID = "" ∨ GOOGLE_SHEET_ID = "your_sheet_id_here" then
    (false, sheet)
  else if pets_data.isEmpty then (true, sheet)
  else
    match api with
    | PushOutcome.success => (true, SHEET_HEADERS :: pets_data.map petRow)
    | PushOutcome.failure => (false, sheet)

/-! ## Orchestration (`_perform_sync_and_update_all`, lines 603-652) -/

/-- The persisted settings the orchestration reads and writes
(`AppSettings` keys of `settings.ini`). -/
structure AppSettings where
  sync_archived_to_gsheet : Bool
  last_successful_sync_all : String
  last_successful_gsheet_update : String
deriving DecidableEq, Repr

/-- Recording both last-success timestamps (lines 639-640). -/
def saveBoth (cfg : AppSettings) (t : String) : AppSettings :=
  { cfg with last_successful_sync_all := t,
             last_successful_gsheet_update := t }

/-- The rows selected for the mirror (lines 617-620): all rows when the
`sync_archived_to_gsheet` setting is on, otherwise only unarchived rows. -/
def pets_to_send (cfg : AppSettings) (all_pets : List Pet) : List Pet :=
  if cfg.sync_archived_to_gsheet then all_pets
  else all_pets.filter (fun p => !p.archived)

/-- The observable outcome of one `_perform_sync_and_update_all` run. -/
structure PerformOut where
  store : List Pet
  settings : AppSettings
  sheet : List (List String)
  db_sync_ok : Bool
  gsheet_update_ok : Bool
deriving DecidableEq, Repr

/-- `_perform_sync_and_update_all` (lines 603-652).  `t` is the
`current_time_str` read at line 607.  A `sync_database` error is caught by
the `except` clauses: no setting is written.  On database success the store
is queried with `archived_filter="All"`; when there are rows, the mirror is
pushed (unless the archived filter empties the list, in which case the push
is skipped and counted as success, lines 623-627); the two last-success
timestamps are written iff `db_sync_ok and gsheet_update_ok` (lines
638-640). -/
def perform_sync_and_update_all (ts : Nat) (t : String)
    (fetch1 fetch2 : List Animal) (api : PushOutcome)
    (st : List Pet) (cfg : AppSettings) (sheet : List (List String)) :
    PerformOut :=
  match sync_database ts fetch1 fetch2 st with
  | (st1, Except.error _) =>
    { store := st1, settings := cfg, sheet := sheet,
      db_sync_ok := false, gsheet_update_ok := false }
  | (st1, Except.ok _) =>
    let all_pets := fetch_filtered_pets_from_db "" "All" "All" "All" st1
    if all_pets.isEmpty then
      { store := st1, settings := saveBoth cfg t, sheet := sheet,
        db_sync_ok := true, gsheet_update_ok := true }
    else
      let toSend := pets_to_send cfg all_pets
      if toSend.isEmpty then
        { store := st1, settings := saveBoth cfg t, sheet := sheet,
          db_sync_ok := true, gsheet_update_ok := true }
      else
        let r := update_google_sheet api toSend sheet
        { store := st1,
          settings := if r.1 then saveBoth cfg t else cfg,
          sheet := r.2, db_sync_ok := true, gsheet_update_ok := r.1 }

/-! ## GUI state machine (`PetSyncGUI`, lines 353-652)

The orchestration state visible to the mutual-exclusion logic: the
`sync_running` flag, the enabled/disabled state of the toolbar buttons
(`update_button_states`, lines 528-533), whether the hourly scheduler job is
armed, and how many worker threads (`_perform_sync_and_update_all`) are
currently in flight.  Event handlers run on the Tk main thread, worker runs
on daemon threads; thread start and thread completion (the `finally` clause
scheduled back on the main thread) are the interleaving points. -/

structure GuiState where
  sync_running : Bool
  btn_start_enabled : Bool
  btn_stop_enabled : Bool
  btn_manual_enabled : Bool
  btn_gsheet_enabled : Bool
  scheduled_job : Bool
  runs_in_flight : Nat
deriving DecidableEq, Repr

/-- `update_button_states` (lines 528-533). -/
def update_button_states (s : GuiState) (operation_running : Bool) :
    GuiState :=
  let is_auto := s.sync_running
  { s with
    btn_start_enabled := !(is_auto || operation_running),
    btn_stop_enabled := is_auto && !operation_running,
    btn_manual_enabled := !(is_auto || operation_running),
    btn_gsheet_enabled := !(is_auto || operation_running) }

/-- `trigger_manual_sync_all` (lines 597-601): unconditionally disables the
buttons and starts a worker thread.  There is no check of `sync_running` or
of an in-flight run in this method. -/
def trigger_manual_sync_all (s : GuiState) : GuiState :=
  let s1 := update_button_states s true
  { s1 with runs_in_flight := s1.runs_in_flight + 1 }

/-- `start_auto_sync` (lines 568-582), happy path: a no-op when
`sync_running` is already set; otherwise sets the flag, runs the initial
sync via `trigger_manual_sync_all`, arms the hourly job, and re-enables
buttons in the `finally` clause (which runs as soon as the worker thread has
been spawned). -/
def start_auto_sync (s : GuiState) : GuiState :=
  if s.sync_running then s
  else
    let s1 := update_button_states { s with sync_running := true } false
    let s2 := trigger_manual_sync_all s1
    update_button_states { s2 with scheduled_job := true } false

/-- `stop_auto_sync` (lines 584-591): removes the scheduled job and clears
`sync_running`; the `finally` clause re-enables the buttons immediately,
regardless of any run still in flight. -/
def stop_auto_sync (s : GuiState) : GuiState :=
  if s.sync_running then
    update_button_states
      { s with scheduled_job := false, sync_running := false } false
  else s

/-- Completion of a worker thread: the `finally` of
`_perform_sync_and_update_all` (line 652) schedules
`update_button_states()` on the main thread. -/
def run_complete (s : GuiState) : GuiState :=
  update_button_states { s with runs_in_flight := s.runs_in_flight - 1 } false

/-- The hourly APScheduler job `_scheduled_sync_all_task` (lines 593-595):
spawns a worker thread directly, with no button or flag check. -/
def timer_fire (s : GuiState) : GuiState :=
  if s.scheduled_job then { s with runs_in_flight := s.runs_in_flight + 1 }
  else s

/-- The external events that drive the GUI state: a click on a toolbar
button reaches its command only when the button is enabled (Tk ignores
clicks on a disabled button), the hourly timer, and worker completion. -/
inductive GuiEvent
  | clickStart
  | clickStop
  | clickManual
  | timerFire
  | runComplete
deriving DecidableEq, Repr

/-- One step of the GUI state machine. -/
def guiStep (s : GuiState) : GuiEvent → GuiState
  | GuiEvent.clickStart =>
    if s.btn_start_enabled then start_auto_sync s else s
  | GuiEvent.clickStop =>
    if s.btn_stop_enabled then stop_auto_sync s else s
  | GuiEvent.clickManual =>
    if s.btn_manual_enabled then trigger_manual_sync_all s else s
  | GuiEvent.timerFire => timer_fire s
  | GuiEvent.runComplete => run_complete s

/-- The state after `PetSyncGUI.__init__`: `sync_running = False`
(line 367) and `update_button_states()` (line 385) leaves start, manual and
gsheet enabled and stop disabled; no job armed, no run in flight. -/
def initState : GuiState :=
  { sync_running := false, btn_start_enabled := true,
    btn_stop_enabled := false, btn_manual_enabled := true,
    btn_gsheet_enabled := true, scheduled_job := false, runs_in_flight := 0 }

/-- Run a sequence of events from a state. -/
def runEvents (s : GuiState) (es : List GuiEvent) : GuiState :=
  es.foldl guiStep s

/-- The net effect on one already-present row of processing one fetched
animal in the upsert loop: the row is overwritten when the ids agree.
(A proof device used to characterise the loop; not part of the program.) -/
def updOne (ts : Nat) (p : Pet) (a : Animal) : Pet :=
  if a.id = "" then p
  else if p.id = a.id then petFromAnimal ts a else p

/-- The net effect on one already-present row of the whole upsert loop. -/
def applyUpd (ts : Nat) (S : List Animal) (p : Pet) : Pet :=
  S.foldl (updOne ts) p

/-- `FreshFor ts S x st`: the store `st` has a row with id `x`, and every
row with id `x` is exactly the fresh row written for one of the snapshot
animals carrying that id.  (A proof device: after the upsert loop this
holds for every valid snapshot id.) -/
def FreshFor (ts : Nat) (S : List Animal) (x : String) (st : List Pet) :
    Prop :=
  (∃ p ∈ st, p.id = x) ∧
    ∀ p ∈ st, p.id = x →
      ∃ b ∈ S, b.id ≠ "" ∧ b.id = x ∧ p = petFromAnimal ts b

/-- Modelled from the spec claim wording (claim C5): names compared
"case-insensitively", i.e. after lowercasing, with SQL NULLs first.  This is
the ordering the spec asserts; the code orders with the case-sensitive
BINARY collation instead (`nameLeB`). -/
@[reducible] def ciNameLeB : Option String → Option String → Bool
  | none, _ => true
  | some _, none => false
  | some x, some y => charsLe (lowerChars x.data) (lowerChars y.data)

/-- Modelled from the spec claim wording (claim C5): the query with empty
search and all filters at `All` returns every record, with all unarchived
rows before the archived ones and, inside each group, adjacent rows in
case-insensitive alphabetical order of name. -/
@[reducible] def claimC5Output (st : List Pet) : Prop :=
  (∀ p ∈ st, p ∈ fetch_filtered_pets_from_db "" "All" "All" "All" st) ∧
    (∀ p ∈ fetch_filtered_pets_from_db "" "All" "All" "All" st, p ∈ st) ∧
    List.Chain' (fun p q => ¬ (p.archived = true ∧ q.archived = false))
      (fetch_filtered_pets_from_db "" "All" "All" "All" st) ∧
    List.Chain'
      (fun p q => p.archived ≠ q.archived ∨ ciNameLeB p.name q.name = true)
      (fetch_filtered_pets_from_db "" "All" "All" "All" st)

/-! ### Concrete sample data (used by witnesses and counterexamples) -/

/-- A fetched animal with id `A1`. -/
def aRex : Animal := ⟨"A1", some "Rex", none, none, none, none, none, none, none⟩

/-- A fetched animal with id `A2`. -/
def aMia : Animal := ⟨"A2", some "Mia", none, none, none, none, none, none, none⟩

/-- A parsed item whose id is falsy (skipped by the loops). -/
def aNoId : Animal := ⟨"", some "Ghost", none, none, none, none, none, none, none⟩

/-- An unarchived stored row named `apple` (lowercase). -/
def pApple : Pet :=
  ⟨"1", some "apple", none, none, none, none, none, none, none, 0, false⟩

/-- An unarchived stored row named `Banana` (uppercase initial). -/
def pBanana : Pet :=
  ⟨"2", some "Banana", none, none, none, none, none, none, none, 0, false⟩

/-- An archived stored row with id `A1` (an animal seen in the past). -/
def pOldA1 : Pet :=
  ⟨"A1", some "Old", none, none, none, none, none, none, none, 0, true⟩

/-- An archived stored row with id `Z`. -/
def pZ : Pet :=
  ⟨"Z", some "Zed", none, none, none, none, none, none, none, 0, true⟩

/-- Settings: mirror archived rows too, no successful syncs recorded yet. -/
def cfg0 : AppSettings := ⟨true, "N/A", "N/A"⟩

/-- Settings: keep archived rows out of the mirror. -/
def cfgNoArch : AppSettings := ⟨false, "N/A", "N/A"⟩

/-! ## Basic lemmas about ids and the upsert loop -/

theorem validIds_mem {S : List Animal} {a : Animal} (ha : a ∈ S)
    (hv : a.id ≠ "") : a.id ∈ validIds S := by
  induction S with
  | nil => cases ha
  | cons c T ih =>
    rcases List.mem_cons.mp ha with rfl | haT
    · simp [validIds, hv]
    · by_cases hc : c.id = "" <;> simp [validIds, hc, ih haT]

theorem mem_validIds {S : List Animal} {x : String} (hx : x ∈ validIds S) :
    ∃ a ∈ S, a.id ≠ "" ∧ a.id = x := by
  induction S with
  | nil => cases hx
  | cons c T ih =>
    by_cases hc : c.id = ""
    · simp only [validIds, if_pos hc] at hx
      obtain ⟨a, ha, h1, h2⟩ := ih hx
      exact ⟨a, List.mem_cons_of_mem c ha, h1, h2⟩
    · simp only [validIds, if_neg hc] at hx
      rcases List.mem_cons.mp hx with rfl | hxT
      · exact ⟨c, List.mem_cons_self c T, hc, rfl⟩
      · obtain ⟨a, ha, h1, h2⟩ := ih hxT
        exact ⟨a, List.mem_cons_of_mem c ha, h1, h2⟩

theorem validIds_ne_nil {S : List Animal} {a : Animal} (ha : a ∈ S)
    (hv : a.id ≠ "") : validIds S ≠ [] :=
  fun h => by simpa [h] using validIds_mem ha hv

theorem petFromAnimal_id (ts : Nat) (a : Animal) :
    (petFromAnimal ts a).id = a.id := rfl

theorem upsertStep_skip (ts : Nat) (acc : List Pet × Nat × Nat)
    {a : Animal} (h : a.id = "") : upsertStep ts acc a = acc := by
  simp [upsertStep, h]

theorem upsertStep_update (ts : Nat) (acc : List Pet × Nat × Nat)
    {a : Animal} (h : a.id ≠ "") (he : ∃ q ∈ acc.1, q.id = a.id) :
    upsertStep ts acc a =
      (acc.1.map (fun p => if p.id = a.id then petFromAnimal ts a else p),
       acc.2.1, acc.2.2 + 1) := by
  simp [upsertStep, h, he]

theorem upsertStep_insert (ts : Nat) (acc : List Pet × Nat × Nat)
    {a : Animal} (h : a.id ≠ "") (he : ¬ ∃ q ∈ acc.1, q.id = a.id) :
    upsertStep ts acc a =
      (acc.1 ++ [petFromAnimal ts a], acc.2.1 + 1, acc.2.2) := by
  simp only [upsertStep, if_neg h]
  exact if_neg he

/-- Every row after the upsert loop is an untouched original row or the
fresh row written for one of the processed animals. -/
theorem mem_upsert_fold (ts : Nat) :
    ∀ (S : List Animal) (acc : List Pet × Nat × Nat) (p : Pet),
      p ∈ (S.foldl (upsertStep ts) acc).1 →
      p ∈ acc.1 ∨ ∃ a ∈ S, a.id ≠ "" ∧ p = petFromAnimal ts a := by
  intro S
  induction S with
  | nil => exact fun acc p hp => Or.inl hp
  | cons a T ih =>
    intro acc p hp
    rw [List.foldl_cons] at hp
    rcases ih (upsertStep ts acc a) p hp with hmem | ⟨b, hb, hbv, hbp⟩
    · by_cases ha : a.id = ""
      · rw [upsertStep_skip ts acc ha] at hmem
        exact Or.inl hmem
      · by_cases he : ∃ q ∈ acc.1, q.id = a.id
        · rw [upsertStep_update ts acc ha he] at hmem
          obtain ⟨q, hq, hqp⟩ := List.mem_map.mp hmem
          by_cases hqa : q.id = a.id
          · right
            exact ⟨a, List.mem_cons_self a T, ha, by simp [← hqp, hqa]⟩
          · left
            have hqp2 : q = p := by simpa [hqa] using hqp
            exact hqp2 ▸ hq
        · rw [upsertStep_insert ts acc ha he] at hmem
          rcases List.mem_append.mp hmem with h1 | h2
          · exact Or.inl h1
          · right
            exact ⟨a, List.mem_cons_self a T, ha, List.mem_singleton.mp h2⟩
    · exact Or.inr ⟨b, List.mem_cons_of_mem a hb, hbv, hbp⟩

/-- A row whose id was not among the processed (valid) ids passes through the
upsert loop untouched. -/
theorem upsert_fold_not_touched (ts : Nat) :
    ∀ (S : List Animal) (acc : List Pet × Nat × Nat) (p : Pet),
      p ∈ (S.foldl (upsertStep ts) acc).1 → p.id ∉ validIds S →
      p ∈ acc.1 := by
  intro S
  induction S with
  | nil => exact fun acc p hp _ => hp
  | cons a T ih =>
    intro acc p hp hnot
    rw [List.foldl_cons] at hp
    by_cases ha : a.id = ""
    · rw [validIds, if_pos ha] at hnot
      have := ih (upsertStep ts acc a) p hp hnot
      rwa [upsertStep_skip ts acc ha] at this
    · rw [validIds, if_neg ha] at hnot
      have hpa : p.id ≠ a.id := fun h => hnot (h ▸ List.mem_cons_self _ _)
      have hnotT : p.id ∉ validIds T :=
        fun h => hnot (List.mem_cons_of_mem _ h)
      have hmem := ih (upsertStep ts acc a) p hp hnotT
      by_cases he : ∃ q ∈ acc.1, q.id = a.id
      · rw [upsertStep_update ts acc ha he] at hmem
        obtain ⟨q, hq, hqp⟩ := List.mem_map.mp hmem
        by_cases hqa : q.id = a.id
        · exact absurd (by simp [← hqp, hqa, petFromAnimal]) hpa
        · have hqp2 : q = p := by simpa [hqa] using hqp
          exact hqp2 ▸ hq
      · rw [upsertStep_insert ts acc ha he] at hmem
        rcases List.mem_append.mp hmem with h1 | h2
        · exact h1
        · exact absurd
            (by simp [List.mem_singleton.mp h2, petFromAnimal]) hpa

/-- The upsert loop never removes an id from the store. -/
theorem upsert_fold_id_mono (ts : Nat) :
    ∀ (S : List Animal) (acc : List Pet × Nat × Nat) (x : String),
      (∃ p ∈ acc.1, p.id = x) →
      ∃ p ∈ (S.foldl (upsertStep ts) acc).1, p.id = x := by
  intro S
  induction S with
  | nil => exact fun acc x h => h
  | cons a T ih =>
    intro acc x h
    rw [List.foldl_cons]
    refine ih (upsertStep ts acc a) x ?_
    by_cases ha : a.id = ""
    · rwa [upsertStep_skip ts acc ha]
    · obtain ⟨q, hq, hqx⟩ := h
      by_cases he : ∃ q ∈ acc.1, q.id = a.id
      · rw [upsertStep_update ts acc ha he]
        refine ⟨if q.id = a.id then petFromAnimal ts a else q,
          List.mem_map_of_mem _ hq, ?_⟩
        by_cases hqa : q.id = a.id
        · rw [if_pos hqa, petFromAnimal_id, ← hqa]
          exact hqx
        · rw [if_neg hqa]
          exact hqx
      · rw [upsertStep_insert ts acc ha he]
        exact ⟨q, List.mem_append_left _ hq, hqx⟩

/-- The loop counters: one `inserted` or one `updated` per processed valid
animal. -/
theorem upsert_fold_count (ts : Nat) :
    ∀ (S : List Animal) (acc : List Pet × Nat × Nat),
      (S.foldl (upsertStep ts) acc).2.1 + (S.foldl (upsertStep ts) acc).2.2
        = acc.2.1 + acc.2.2 + (validIds S).length := by
  intro S
  induction S with
  | nil => exact fun acc => by simp [validIds]
  | cons a T ih =>
    intro acc
    rw [List.foldl_cons]
    by_cases ha : a.id = ""
    · rw [upsertStep_skip ts acc ha, ih acc, validIds, if_pos ha]
    · by_cases he : ∃ q ∈ acc.1, q.id = a.id
      · rw [upsertStep_update ts acc ha he, ih, validIds, if_neg ha]
        simp only [List.length_cons]
        omega
      · rw [upsertStep_insert ts acc ha he, ih, validIds, if_neg ha]
        simp only [List.length_cons]
        omega

/-! ## Lemmas about the archival step -/

theorem archiveF_eq_id (ts : Nat) (ids : List String) (p : Pet) :
    (archiveF ts ids p).id = p.id := by
  unfold archiveF
  split <;> rfl

theorem archiveF_fix_active {ts : Nat} {ids : List String} {p : Pet}
    (h : p.id ∈ ids) : archiveF ts ids p = p := by
  simp [archiveF, h]

theorem archiveF_fix_archived {ts : Nat} {ids : List String} {p : Pet}
    (h : p.archived = true) : archiveF ts ids p = p := by
  simp [archiveF, h]

theorem archiveF_missing_archived {ts : Nat} {ids : List String} {p : Pet}
    (h : p.id ∉ ids) : (archiveF ts ids p).archived = true := by
  by_cases hp : p.archived = true
  · rw [archiveF_fix_archived hp]; exact hp
  · simp [archiveF, h, hp]

/-! ## The rows written for a processed animal -/

theorem freshFor_step (ts : Nat) {S : List Animal} {x : String}
    {a : Animal} (ha : a ∈ S) (acc : List Pet × Nat × Nat)
    (h : FreshFor ts S x acc.1) :
    FreshFor ts S x ((upsertStep ts acc a).1) := by
  obtain ⟨⟨w, hw, hwx⟩, hall⟩ := h
  by_cases hav : a.id = ""
  · rw [upsertStep_skip ts acc hav]
    exact ⟨⟨w, hw, hwx⟩, hall⟩
  · by_cases he : ∃ q ∈ acc.1, q.id = a.id
    · rw [upsertStep_update ts acc hav he]
      constructor
      · refine ⟨if w.id = a.id then petFromAnimal ts a else w,
          List.mem_map_of_mem _ hw, ?_⟩
        by_cases hwa : w.id = a.id
        · rw [if_pos hwa, petFromAnimal_id, ← hwa]; exact hwx
        · rw [if_neg hwa]; exact hwx
      · intro p hp hpx
        obtain ⟨q, hq, hqp⟩ := List.mem_map.mp hp
        by_cases hqa : q.id = a.id
        · have hpa : p = petFromAnimal ts a := by simp [← hqp, hqa]
          have hax : a.id = x := by
            rw [← hpx, hpa, petFromAnimal_id]
          exact ⟨a, ha, hav, hax, hpa⟩
        · have hqp2 : q = p := by simpa [hqa] using hqp
          exact hall p (hqp2 ▸ hq) hpx
    · rw [upsertStep_insert ts acc hav he]
      constructor
      · exact ⟨w, List.mem_append_left _ hw, hwx⟩
      · intro p hp hpx
        rcases List.mem_append.mp hp with h1 | h2
        · exact hall p h1 hpx
        · have hpa := List.mem_singleton.mp h2
          have hax : a.id = x := by rw [← hpx, hpa, petFromAnimal_id]
          exact ⟨a, ha, hav, hax, hpa⟩

theorem freshFor_fold (ts : Nat) {S : List Animal} {x : String} :
    ∀ (T : List Animal) (acc : List Pet × Nat × Nat),
      (∀ b ∈ T, b ∈ S) → FreshFor ts S x acc.1 →
      FreshFor ts S x ((T.foldl (upsertStep ts) acc).1) := by
  intro T
  induction T with
  | nil => exact fun acc _ h => h
  | cons a T ih =>
    intro acc hsub h
    rw [List.foldl_cons]
    exact ih (upsertStep ts acc a)
      (fun b hb => hsub b (List.mem_cons_of_mem a hb))
      (freshFor_step ts (hsub a (List.mem_cons_self a T)) acc h)

theorem freshFor_establish (ts : Nat) {S : List Animal} {x : String}
    {a : Animal} (ha : a ∈ S) (hax : a.id = x) (hav : a.id ≠ "")
    (acc : List Pet × Nat × Nat) :
    FreshFor ts S x ((upsertStep ts acc a).1) := by
  by_cases he : ∃ q ∈ acc.1, q.id = a.id
  · rw [upsertStep_update ts acc hav he]
    obtain ⟨q, hq, hqa⟩ := he
    constructor
    · refine ⟨if q.id = a.id then petFromAnimal ts a else q,
        List.mem_map_of_mem _ hq, ?_⟩
      rw [if_pos hqa, petFromAnimal_id]; exact hax
    · intro p hp hpx
      obtain ⟨r, hr, hrp⟩ := List.mem_map.mp hp
      by_cases hra : r.id = a.id
      · exact ⟨a, ha, hav, hax, by simp [← hrp, hra]⟩
      · have hrp2 : r = p := by simpa [hra] using hrp
        exact absurd (by rw [← hrp2] at hpx; rw [hpx, ← hax]) hra
  · rw [upsertStep_insert ts acc hav he]
    constructor
    · exact ⟨petFromAnimal ts a, List.mem_append_right _ (by simp),
        hax ▸ petFromAnimal_id ts a⟩
    · intro p hp hpx
      rcases List.mem_append.mp hp with h1 | h2
      · exact absurd ⟨p, h1, hpx.trans hax.symm⟩ he
      · exact ⟨a, ha, hav, hax, List.mem_singleton.mp h2⟩

/-- After the upsert loop, every valid snapshot id is present and all its
rows are the fresh row of one of the snapshot animals with that id. -/
theorem freshFor_upsert (ts : Nat) {S : List Animal} :
    ∀ (T : List Animal) (acc : List Pet × Nat × Nat) (x : String),
      (∀ b ∈ T, b ∈ S) → x ∈ validIds T →
      FreshFor ts S x ((T.foldl (upsertStep ts) acc).1) := by
  intro T
  induction T with
  | nil => intro acc x _ hx; cases hx
  | cons a T ih =>
    intro acc x hsub hx
    rw [List.foldl_cons]
    by_cases hav : a.id = ""
    · rw [validIds, if_pos hav] at hx
      exact ih (upsertStep ts acc a)
        x (fun b hb => hsub b (List.mem_cons_of_mem a hb)) hx
    · rw [validIds, if_neg hav] at hx
      rcases List.mem_cons.mp hx with rfl | hxT
      · exact freshFor_fold ts T (upsertStep ts acc a)
          (fun b hb => hsub b (List.mem_cons_of_mem a hb))
          (freshFor_establish ts (hsub a (List.mem_cons_self a T))
            rfl hav acc)
      · exact ih (upsertStep ts acc a)
          x (fun b hb => hsub b (List.mem_cons_of_mem a hb)) hxT

/-! ## The upsert loop as a per-row map (for idempotence) -/

theorem updOne_id (ts : Nat) (p : Pet) (a : Animal) :
    (updOne ts p a).id = p.id := by
  unfold updOne
  split
  · rfl
  · split
    · rename_i h
      exact (petFromAnimal_id ts a).trans h.symm
    · rfl

theorem applyUpd_cons (ts : Nat) (a : Animal) (T : List Animal) (p : Pet) :
    applyUpd ts (a :: T) p = applyUpd ts T (updOne ts p a) := rfl

/-- `applyUpd` leaves a row alone when no processed animal carries its id. -/
theorem applyUpd_not_mem (ts : Nat) :
    ∀ (T : List Animal) (p : Pet), p.id ∉ validIds T →
      applyUpd ts T p = p := by
  intro T
  induction T with
  | nil => exact fun p _ => rfl
  | cons a T ih =>
    intro p hp
    rw [applyUpd_cons]
    by_cases hav : a.id = ""
    · rw [validIds, if_pos hav] at hp
      rw [updOne, if_pos hav]
      exact ih p hp
    · rw [validIds, if_neg hav] at hp
      have hpa : p.id ≠ a.id := fun h => hp (h ▸ List.mem_cons_self _ _)
      rw [updOne, if_neg hav, if_neg hpa]
      exact ih p fun h => hp (List.mem_cons_of_mem _ h)

/-- Two rows with the same id, an id some processed animal carries, end up
identical under `applyUpd` (the overwrite forgets the previous content). -/
theorem applyUpd_congr (ts : Nat) :
    ∀ (T : List Animal) (p q : Pet), p.id = q.id → p.id ∈ validIds T →
      applyUpd ts T p = applyUpd ts T q := by
  intro T
  induction T with
  | nil => intro p q _ hp; cases hp
  | cons a T ih =>
    intro p q hpq hp
    rw [applyUpd_cons, applyUpd_cons]
    by_cases hav : a.id = ""
    · rw [validIds, if_pos hav] at hp
      rw [updOne, if_pos hav, updOne, if_pos hav]
      exact ih p q hpq hp
    · rw [validIds, if_neg hav] at hp
      by_cases hpa : p.id = a.id
      · rw [updOne, if_neg hav, if_pos hpa,
          updOne, if_neg hav, if_pos (hpq ▸ hpa)]
      · have hqa : ¬ q.id = a.id := hpq ▸ hpa
        rw [updOne, if_neg hav, if_neg hpa, updOne, if_neg hav, if_neg hqa]
        exact ih p q hpq ((List.mem_cons.mp hp).resolve_left hpa)

/-- A row in an upsert-loop result with id `x` valid in the snapshot, where
`a` was the animal just processed and `x` does not recur later, is exactly
the fresh row for `a`. -/
theorem upsertStep_rows_updated (ts : Nat) {acc : List Pet × Nat × Nat}
    {a : Animal} {p : Pet} (hav : a.id ≠ "")
    (hp : p ∈ (upsertStep ts acc a).1) (hpa : p.id = a.id) :
    p = petFromAnimal ts a := by
  by_cases he : ∃ q ∈ acc.1, q.id = a.id
  · rw [upsertStep_update ts acc hav he] at hp
    obtain ⟨q, hq, hqp⟩ := List.mem_map.mp hp
    by_cases hqa : q.id = a.id
    · simp [← hqp, hqa]
    · have hqp2 : q = p := by simpa [hqa] using hqp
      exact absurd (hqp2 ▸ hpa) hqa
  · rw [upsertStep_insert ts acc hav he] at hp
    rcases List.mem_append.mp hp with h1 | h2
    · exact absurd ⟨p, h1, hpa⟩ he
    · exact List.mem_singleton.mp h2

/-- Every row of an upsert-loop result is a fixed point of `applyUpd`:
replaying the loop changes nothing. -/
theorem applyUpd_fold_fix (ts : Nat) :
    ∀ (S : List Animal) (acc : List Pet × Nat × Nat) (p : Pet),
      p ∈ (S.foldl (upsertStep ts) acc).1 → applyUpd ts S p = p := by
  intro S
  induction S with
  | nil => exact fun acc p _ => rfl
  | cons a T ih =>
    intro acc p hp
    rw [List.foldl_cons] at hp
    have hfix : applyUpd ts T p = p := ih (upsertStep ts acc a) p hp
    rw [applyUpd_cons]
    by_cases hav : a.id = ""
    · rw [updOne, if_pos hav]
      exact hfix
    · by_cases hpa : p.id = a.id
      · rw [updOne, if_neg hav, if_pos hpa]
        by_cases hmem : a.id ∈ validIds T
        · rw [applyUpd_congr ts T (petFromAnimal ts a) p
            (by rw [petFromAnimal_id, hpa]) (by rw [petFromAnimal_id]; exact hmem)]
          exact hfix
        · have hpT : p.id ∉ validIds T := hpa ▸ hmem
          have hpacc : p ∈ (upsertStep ts acc a).1 :=
            upsert_fold_not_touched ts T (upsertStep ts acc a) p hp hpT
          have hpet : p = petFromAnimal ts a :=
            upsertStep_rows_updated ts hav hpacc hpa
          rw [← hpet]
          exact applyUpd_not_mem ts T p hpT
      · rw [updOne, if_neg hav, if_neg hpa]
        exact hfix

/-- When every valid snapshot id already exists in the store, the whole
upsert loop is a per-row map and performs no insert: the `inserted` counter
is untouched and `updated` grows by the number of valid animals. -/
theorem upsert_fold_all_exist (ts : Nat) :
    ∀ (S : List Animal) (st : List Pet) (i u : Nat),
      (∀ a ∈ S, a.id ≠ "" → ∃ p ∈ st, p.id = a.id) →
      S.foldl (upsertStep ts) (st, i, u)
        = (st.map (applyUpd ts S), i, u + (validIds S).length) := by
  intro S
  induction S with
  | nil =>
    intro st i u _
    have hm : st.map (applyUpd ts []) = st := by
      have h2 : st.map (applyUpd ts []) = st.map id :=
        List.map_congr_left fun p _ => rfl
      rw [h2, List.map_id]
    simp [validIds, hm]
  | cons a T ih =>
    intro st i u hex
    rw [List.foldl_cons]
    by_cases hav : a.id = ""
    · rw [upsertStep_skip ts (st, i, u) hav,
        ih st i u (fun b hb => hex b (List.mem_cons_of_mem a hb)),
        validIds, if_pos hav]
      congr 1
      refine List.map_congr_left fun p _ => ?_
      rw [applyUpd_cons, updOne, if_pos hav]
    · have he : ∃ q ∈ (st, i, u).1, q.id = a.id :=
        hex a (List.mem_cons_self a T) hav
      rw [upsertStep_update ts (st, i, u) hav he]
      have hex2 : ∀ b ∈ T, b.id ≠ "" →
          ∃ p ∈ st.map (fun p => if p.id = a.id then petFromAnimal ts a else p),
            p.id = b.id := by
        intro b hb hbv
        obtain ⟨q, hq, hqb⟩ := hex b (List.mem_cons_of_mem a hb) hbv
        refine ⟨if q.id = a.id then petFromAnimal ts a else q,
          List.mem_map_of_mem _ hq, ?_⟩
        by_cases hqa : q.id = a.id
        · rw [if_pos hqa, petFromAnimal_id, ← hqa]; exact hqb
        · rw [if_neg hqa]; exact hqb
      rw [ih _ i (u + 1) hex2, List.map_map]
      have hmapeq :
          st.map (applyUpd ts T ∘ fun p =>
              if p.id = a.id then petFromAnimal ts a else p)
            = st.map (applyUpd ts (a :: T)) := by
        refine List.map_congr_left fun p _ => ?_
        rw [Function.comp_apply, applyUpd_cons, updOne, if_neg hav]
      rw [hmapeq, validIds, if_neg hav]
      simp only [List.length_cons]
      congr 2
      omega

/-! ## Lemmas about one reconciliation run -/

/-- A snapshot without any valid id changes nothing in the upsert loop. -/
theorem upsert_fold_no_valid (ts : Nat) :
    ∀ (S : List Animal) (acc : List Pet × Nat × Nat), validIds S = [] →
      S.foldl (upsertStep ts) acc = acc := by
  intro S
  induction S with
  | nil => exact fun acc _ => rfl
  | cons a T ih =>
    intro acc hv
    by_cases hav : a.id = ""
    · rw [validIds, if_pos hav] at hv
      rw [List.foldl_cons, upsertStep_skip ts acc hav]
      exact ih acc hv
    · rw [validIds, if_neg hav] at hv
      cases hv

theorem reconcile_eq_no_valid (ts : Nat) (S : List Animal) (st : List Pet)
    (hv : validIds S = []) : reconcile ts S st = (st, 0, 0, 0) := by
  unfold reconcile
  rw [upsert_fold_no_valid ts S (st, 0, 0) hv, hv]
  rfl

theorem reconcile_eq_arch (ts : Nat) (S : List Animal) (st : List Pet)
    (hv : validIds S ≠ []) :
    reconcile ts S st =
      ((S.foldl (upsertStep ts) (st, 0, 0)).1.map
          (archiveF ts (validIds S)),
        (S.foldl (upsertStep ts) (st, 0, 0)).2.1,
        (S.foldl (upsertStep ts) (st, 0, 0)).2.2,
        ((S.foldl (upsertStep ts) (st, 0, 0)).1.filter
            (fun p => decide (¬ (p.id ∈ validIds S ∨ p.archived = true)))).length) := by
  unfold reconcile archiveMissing
  have hne : (validIds S).isEmpty = false := by
    simpa [List.isEmpty_iff] using hv
  rw [hne]
  rfl

/-- After any run, a valid snapshot id is present in the store and every row
carrying it is the fresh (unarchived, `ts`-stamped) row for a snapshot
animal with that id. -/
theorem reconcile_freshFor (ts : Nat) (S : List Animal) (st : List Pet)
    (x : String) (hx : x ∈ validIds S) :
    (∃ p ∈ (reconcile ts S st).1, p.id = x) ∧
      ∀ p ∈ (reconcile ts S st).1, p.id = x →
        ∃ b ∈ S, b.id ≠ "" ∧ b.id = x ∧ p = petFromAnimal ts b := by
  have hv : validIds S ≠ [] := fun h => by simp [h] at hx
  have hfr : FreshFor ts S x ((S.foldl (upsertStep ts) (st, 0, 0)).1) :=
    freshFor_upsert ts S (st, 0, 0) x (fun b hb => hb) hx
  obtain ⟨⟨w, hw, hwx⟩, hall⟩ := hfr
  rw [reconcile_eq_arch ts S st hv]
  constructor
  · refine ⟨archiveF ts (validIds S) w, List.mem_map_of_mem _ hw, ?_⟩
    rw [archiveF_eq_id]; exact hwx
  · intro p hp hpx
    obtain ⟨q, hq, hqp⟩ := List.mem_map.mp hp
    have hqx : q.id = x := by rw [← hpx, ← hqp, archiveF_eq_id]
    have hfix : archiveF ts (validIds S) q = q :=
      archiveF_fix_active (hqx ▸ hx)
    exact hall p ((hfix.symm.trans hqp) ▸ hq) hpx

/-- After a run whose snapshot had at least one valid id, every row whose id
is not a valid snapshot id is archived. -/
theorem reconcile_missing_archived (ts : Nat) (S : List Animal)
    (st : List Pet) (p : Pet) (hv : validIds S ≠ [])
    (hp : p ∈ (reconcile ts S st).1) (hx : p.id ∉ validIds S) :
    p.archived = true := by
  rw [reconcile_eq_arch ts S st hv] at hp
  obtain ⟨q, hq, hqp⟩ := List.mem_map.mp hp
  have hqx : q.id ∉ validIds S := by
    rw [← hqp, archiveF_eq_id] at hx; exact hx
  rw [← hqp]
  exact archiveF_missing_archived hqx

/-- A reconciliation never removes an id from the store. -/
theorem reconcile_id_mono (ts : Nat) (S : List Animal) (st : List Pet)
    (x : String) (h : ∃ p ∈ st, p.id = x) :
    ∃ p ∈ (reconcile ts S st).1, p.id = x := by
  have hfold := upsert_fold_id_mono ts S (st, 0, 0) x h
  by_cases hv : validIds S = []
  · rw [reconcile_eq_no_valid ts S st hv]
    rw [upsert_fold_no_valid ts S (st, 0, 0) hv] at hfold
    exact hfold
  · rw [reconcile_eq_arch ts S st hv]
    obtain ⟨q, hq, hqx⟩ := hfold
    refine ⟨archiveF ts (validIds S) q, List.mem_map_of_mem _ hq, ?_⟩
    rw [archiveF_eq_id]; exact hqx

/-- Every id present after a run was in the store before or is a valid
snapshot id: a run inserts no other rows. -/
theorem reconcile_id_sub (ts : Nat) (S : List Animal) (st : List Pet)
    (p : Pet) (hp : p ∈ (reconcile ts S st).1) :
    (∃ q ∈ st, q.id = p.id) ∨ p.id ∈ validIds S := by
  by_cases hv : validIds S = []
  · rw [reconcile_eq_no_valid ts S st hv] at hp
    exact Or.inl ⟨p, hp, rfl⟩
  · rw [reconcile_eq_arch ts S st hv] at hp
    obtain ⟨q, hq, hqp⟩ := List.mem_map.mp hp
    have hid : q.id = p.id := by rw [← hqp, archiveF_eq_id]
    rcases mem_upsert_fold ts S (st, 0, 0) q hq with hmem | ⟨a, ha, hav, hqa⟩
    · exact Or.inl ⟨q, hmem, hid⟩
    · right
      rw [← hid, hqa, petFromAnimal_id]
      exact validIds_mem ha hav

/-- Every row after a run is an original row (left untouched) or carries the
run's single sync timestamp. -/
theorem mem_reconcile (ts : Nat) (S : List Animal) (st : List Pet)
    (p : Pet) (hp : p ∈ (reconcile ts S st).1) :
    p ∈ st ∨ p.last_seen = ts := by
  by_cases hv : validIds S = []
  · rw [reconcile_eq_no_valid ts S st hv] at hp
    exact Or.inl hp
  · rw [reconcile_eq_arch ts S st hv] at hp
    obtain ⟨q, hq, hqp⟩ := List.mem_map.mp hp
    have hmem := mem_upsert_fold ts S (st, 0, 0) q hq
    by_cases hc : q.id ∈ validIds S ∨ q.archived = true
    · have hfix : archiveF ts (validIds S) q = q := by
        rcases hc with h1 | h2
        · exact archiveF_fix_active h1
        · exact archiveF_fix_archived h2
      rw [← hqp, hfix]
      rcases hmem with h1 | ⟨a, _, _, hqa⟩
      · exact Or.inl h1
      · exact Or.inr (by rw [hqa]; rfl)
    · right
      rw [← hqp]
      simp [archiveF, hc]

/-- A successful run: a non-empty snapshot makes `sync_database` reconcile
and return the counters. -/
theorem sync_database_ok (ts : Nat) (fetch1 fetch2 : List Animal)
    (st : List Pet) (hne : fetched fetch1 fetch2 ≠ []) :
    sync_database ts fetch1 fetch2 st
      = ((reconcile ts (fetched fetch1 fetch2) st).1,
         Except.ok ((reconcile ts (fetched fetch1 fetch2) st).2.1,
           (reconcile ts (fetched fetch1 fetch2) st).2.2.1,
           (reconcile ts (fetched fetch1 fetch2) st).2.2.2)) := by
  have h : (fetched fetch1 fetch2).isEmpty = false := by
    simpa [List.isEmpty_iff] using hne
  simp only [sync_database, h, Bool.false_eq_true, if_false]

/-! ## The ordering used by the query engine -/

theorem charsLe_total : ∀ x y : List Char,
    charsLe x y = true ∨ charsLe y x = true := by
  intro x
  induction x with
  | nil => exact fun y => Or.inl rfl
  | cons c cs ih =>
    intro y
    cases y with
    | nil => exact Or.inr rfl
    | cons d ds =>
      by_cases hcd : c = d
      · subst hcd
        rcases ih ds with h | h
        · exact Or.inl (by simpa [charsLe] using h)
        · exact Or.inr (by simpa [charsLe] using h)
      · rcases Ne.lt_or_lt hcd with h | h
        · exact Or.inl (by simp [charsLe, hcd, h])
        · exact Or.inr (by simp [charsLe, Ne.symm hcd, h])

theorem charsLe_trans : ∀ x y z : List Char,
    charsLe x y = true → charsLe y z = true → charsLe x z = true := by
  intro x
  induction x with
  | nil => exact fun y z _ _ => rfl
  | cons c cs ih =>
    intro y z hxy hyz
    cases y with
    | nil => simp [charsLe] at hxy
    | cons d ds =>
      cases z with
      | nil => simp [charsLe] at hyz
      | cons e es =>
        by_cases hcd : c = d <;> by_cases hde : d = e
        · subst hcd; subst hde
          simp only [charsLe, if_pos rfl] at hxy hyz ⊢
          exact ih ds es hxy hyz
        · subst hcd
          simp only [charsLe, if_pos rfl, if_neg hde,
            decide_eq_true_eq] at hyz ⊢
          exact hyz
        · subst hde
          simp only [charsLe, if_neg hcd, decide_eq_true_eq] at hxy ⊢
          exact hxy
        · simp only [charsLe, if_neg hcd, if_neg hde,
            decide_eq_true_eq] at hxy hyz
          have hce : c < e := lt_trans hxy hyz
          simp [charsLe, ne_of_lt hce, hce]

theorem nameLeB_total : ∀ x y : Option String,
    nameLeB x y = true ∨ nameLeB y x = true := by
  intro x y
  cases x with
  | none => exact Or.inl rfl
  | some a =>
    cases y with
    | none => exact Or.inr rfl
    | some b => exact charsLe_total a.data b.data

theorem nameLeB_trans : ∀ x y z : Option String,
    nameLeB x y = true → nameLeB y z = true → nameLeB x z = true := by
  intro x y z hxy hyz
  cases x with
  | none => rfl
  | some a =>
    cases y with
    | none => simp [nameLeB] at hxy
    | some b =>
      cases z with
      | none => simp [nameLeB] at hyz
      | some cc => exact charsLe_trans a.data b.data cc.data hxy hyz

theorem petLeB_total (p q : Pet) : petLeB p q = true ∨ petLeB q p = true := by
  unfold petLeB
  by_cases h : p.archived = q.archived
  · rw [if_pos h, if_pos h.symm]
    exact nameLeB_total p.name q.name
  · rw [if_neg h, if_neg (Ne.symm h)]
    cases hp : p.archived
    · simp
    · cases hq : q.archived
      · simp
      · exact absurd (hp.trans hq.symm) h

theorem petLeB_trans (p q r : Pet) (hpq : petLeB p q = true)
    (hqr : petLeB q r = true) : petLeB p r = true := by
  unfold petLeB at hpq hqr ⊢
  cases hp : p.archived <;> cases hq : q.archived <;>
    cases hr : r.archived <;>
    rw [hp, hq] at hpq <;> rw [hq, hr] at hqr <;>
    simp at hpq hqr ⊢ <;>
    exact nameLeB_trans _ _ _ hpq hqr

/-- With no search term and every filter at `All`, the WHERE clause keeps
every row. -/
theorem rowMatches_all (p : Pet) :
    rowMatches "" "All" "All" "All" p = true := rfl

/-! # Claim theorems -/

/-- Claim C1 (confirmed): reconciling an empty snapshot (still empty after
the retry) makes the run raise `ConnectionError` before any database
statement executes, so the store is returned completely unchanged — every
existing record keeps its `archived` flag and its `last_seen` timestamp,
and no record is inserted, updated or archived. -/
theorem c1_empty_snapshot_safety (ts : Nat) (st : List Pet) :
    sync_database ts [] [] st
      = (st, Except.error SyncError.connectionError) :=
  rfl

/-- Claim C9 (confirmed): an empty first fetch is retried exactly once —
two calls in total, never a third; a still-empty result after the retry is
reported as the `ConnectionError` raise, which is distinct from every
successful return. -/
theorem c9_retry_once (ts : Nat) (fetch1 fetch2 : List Animal)
    (st : List Pet) (h1 : fetch1 = []) :
    fetch_attempts fetch1 = 2 ∧
      (fetch2 = [] →
        (sync_database ts fetch1 fetch2 st).2
            = Except.error SyncError.connectionError ∧
          ∀ counts,
            (sync_database ts fetch1 fetch2 st).2 ≠ Except.ok counts) := by
  subst h1
  refine ⟨rfl, fun h2 => ?_⟩
  subst h2
  exact ⟨rfl, fun counts h => Except.noConfusion h⟩

/-- Witness for claim C9 at the concrete input of two empty fetches. -/
theorem c9_retry_once_witness :
    fetch_attempts ([] : List Animal) = 2 ∧
      (([] : List Animal) = [] →
        (sync_database 0 [] [] ([] : List Pet)).2
            = Except.error SyncError.connectionError ∧
          ∀ counts,
            (sync_database 0 [] [] ([] : List Pet)).2 ≠ Except.ok counts) :=
  c9_retry_once 0 [] [] [] rfl

/-- Claim C2 (confirmed): reconciling `S1` and then a non-empty `S2` (both
snapshots come from the fetcher, whose records all carry a non-empty id):
every id of `S1` that is absent from `S2` is still present and `archived`
afterwards, and every id of `S2` that is absent from `S1` and from the
original store was freshly inserted (absent between the runs) and ends
`archived = false`. -/
theorem c2_archival_correctness (ts1 ts2 : Nat) (S1 S2 : List Animal)
    (st0 : List Pet) (hv1 : ∀ a ∈ S1, a.id ≠ "")
    (hv2 : ∀ a ∈ S2, a.id ≠ "") (hS2 : S2 ≠ []) :
    (∀ a ∈ S1, (∀ b ∈ S2, b.id ≠ a.id) →
        (∃ p ∈ (reconcile ts2 S2 (reconcile ts1 S1 st0).1).1,
            p.id = a.id) ∧
          ∀ p ∈ (reconcile ts2 S2 (reconcile ts1 S1 st0).1).1,
            p.id = a.id → p.archived = true) ∧
      (∀ b ∈ S2, (∀ a ∈ S1, a.id ≠ b.id) → (∀ p ∈ st0, p.id ≠ b.id) →
        (∀ p ∈ (reconcile ts1 S1 st0).1, p.id ≠ b.id) ∧
          ∃ p ∈ (reconcile ts2 S2 (reconcile ts1 S1 st0).1).1,
            p.id = b.id ∧ p.archived = false) := by
  obtain ⟨c, hc⟩ := List.exists_mem_of_ne_nil S2 hS2
  have hvne2 : validIds S2 ≠ [] := validIds_ne_nil hc (hv2 c hc)
  constructor
  · intro a ha hnot
    have hx1 : a.id ∈ validIds S1 := validIds_mem ha (hv1 a ha)
    have he1 : ∃ p ∈ (reconcile ts1 S1 st0).1, p.id = a.id :=
      (reconcile_freshFor ts1 S1 st0 a.id hx1).1
    have hnotin : a.id ∉ validIds S2 := by
      intro h
      obtain ⟨b, hb, _, hbid⟩ := mem_validIds h
      exact hnot b hb hbid
    refine ⟨reconcile_id_mono ts2 S2 _ a.id he1, ?_⟩
    intro p hp hpid
    exact reconcile_missing_archived ts2 S2 _ p hvne2 hp (hpid ▸ hnotin)
  · intro b hb hnotS1 hnotst0
    have hx2 : b.id ∈ validIds S2 := validIds_mem hb (hv2 b hb)
    have hfresh : ∀ p ∈ (reconcile ts1 S1 st0).1, p.id ≠ b.id := by
      intro p hp hpb
      rcases reconcile_id_sub ts1 S1 st0 p hp with ⟨q, hq, hqid⟩ | hmem
      · exact hnotst0 q hq (hqid.trans hpb)
      · obtain ⟨a, ha, _, haid⟩ := mem_validIds (hpb ▸ hmem)
        exact hnotS1 a ha haid
    refine ⟨hfresh, ?_⟩
    obtain ⟨⟨p, hp, hpid⟩, hall⟩ := reconcile_freshFor ts2 S2 _ b.id hx2
    obtain ⟨b2, _, _, _, hpet⟩ := hall p hp hpid
    exact ⟨p, hp, hpid, by rw [hpet]; rfl⟩

/-- Witness for claim C2: the spec's own scenario — store empty, reconcile
`[Rex(A1), Mia(A2)]` then `[Rex(A1)]`; id `A2` is still present and
archived after the second run. -/
theorem c2_archival_correctness_witness :
    (∃ p ∈ (reconcile 1 [aRex] (reconcile 0 [aRex, aMia] []).1).1,
        p.id = aMia.id) ∧
      ∀ p ∈ (reconcile 1 [aRex] (reconcile 0 [aRex, aMia] []).1).1,
        p.id = aMia.id → p.archived = true :=
  (c2_archival_correctness 0 1 [aRex, aMia] [aRex] []
      (by decide) (by decide) (by decide)).1
    aMia (List.mem_cons_of_mem _ (List.mem_cons_self _ _)) (by decide)

/-- Claim C6 (confirmed): the run reads the clock once (line 210), and every
record touched by a successful reconciliation — inserted, updated or
freshly archived, i.e. every row that is not carried over verbatim from the
old store — carries that single sync timestamp in `last_seen`. -/
theorem c6_single_timestamp (ts : Nat) (S : List Animal) (st0 : List Pet) :
    ∀ p ∈ (reconcile ts S st0).1, p ∈ st0 ∨ p.last_seen = ts :=
  fun p hp => mem_reconcile ts S st0 p hp

/-- Witness for claim C6: the row inserted for `Rex` carries the run's
timestamp. -/
theorem c6_single_timestamp_witness :
    petFromAnimal 5 aRex ∈ (reconcile 5 [aRex] []).1 ∧
      (petFromAnimal 5 aRex ∈ ([] : List Pet) ∨
        (petFromAnimal 5 aRex).last_seen = 5) :=
  ⟨List.mem_cons_self _ _,
    c6_single_timestamp 5 [aRex] [] (petFromAnimal 5 aRex)
      (List.mem_cons_self _ _)⟩

/-- Claim C8 (confirmed): a record stored with `archived = true` whose id
reappears in a later snapshot is un-archived by the run, and each of its
rows is exactly the fresh row built from a snapshot animal with that id —
every descriptive field overwritten with the snapshot values. -/
theorem c8_reappearance (ts : Nat) (S : List Animal) (st0 : List Pet)
    (a : Animal) (p0 : Pet) (ha : a ∈ S) (hv : a.id ≠ "")
    (hp0 : p0 ∈ st0) (hpid : p0.id = a.id) (harch : p0.archived = true) :
    (∃ p ∈ (reconcile ts S st0).1, p.id = a.id) ∧
      ∀ p ∈ (reconcile ts S st0).1, p.id = a.id →
        p.archived = false ∧
          ∃ b ∈ S, b.id = a.id ∧ p = petFromAnimal ts b := by
  obtain ⟨hex, hall⟩ :=
    reconcile_freshFor ts S st0 a.id (validIds_mem ha hv)
  refine ⟨hex, fun p hp hpid2 => ?_⟩
  obtain ⟨b, hb, _, hbid, hpet⟩ := hall p hp hpid2
  exact ⟨by rw [hpet]; rfl, b, hb, hbid, hpet⟩

/-- Witness for claim C8: the archived row `A1` reappears as `Rex` and is
un-archived with the snapshot's fields. -/
theorem c8_reappearance_witness :
    (∃ p ∈ (reconcile 7 [aRex] [pOldA1]).1, p.id = aRex.id) ∧
      ∀ p ∈ (reconcile 7 [aRex] [pOldA1]).1, p.id = aRex.id →
        p.archived = false ∧
          ∃ b ∈ [aRex], b.id = aRex.id ∧ p = petFromAnimal 7 b :=
  c8_reappearance 7 [aRex] [pOldA1] aRex pOldA1
    (List.mem_cons_self _ _) (by decide)
    (List.mem_cons_self _ _) (by decide) (by decide)

/-- Claim C7, counterexample: as stated, "reconciling S twice in succession
yields the same store state as reconciling it once" is false on the code,
because each run stamps `last_seen` with its own clock read: reconciling
`[Rex]` at time 0 and again at time 1 changes the row's `last_seen`. -/
theorem c7_idempotence_counterexample :
    (reconcile 1 [aRex] ((reconcile 0 [aRex] []).1)).1
      ≠ (reconcile 0 [aRex] []).1 := by decide

/-- Claim C7, amended: the second pass performs no insert and its `updated`
count equals `inserted + updated` of the first pass (for any pair of sync
timestamps), and when the two passes use the same sync timestamp the store
state after the second pass is exactly the state after the first. -/
theorem c7_idempotence_amended (ts ts2 : Nat) (S : List Animal)
    (st0 : List Pet) (hS : S ≠ []) :
    (reconcile ts2 S (reconcile ts S st0).1).2.1 = 0 ∧
      (reconcile ts2 S (reconcile ts S st0).1).2.2.1
          = (reconcile ts S st0).2.1 + (reconcile ts S st0).2.2.1 ∧
      (reconcile ts S (reconcile ts S st0).1).1
          = (reconcile ts S st0).1 := by
  by_cases hv : validIds S = []
  · simp [reconcile_eq_no_valid, hv]
  · have hex : ∀ a ∈ S, a.id ≠ "" →
        ∃ p ∈ (reconcile ts S st0).1, p.id = a.id :=
      fun a ha hav =>
        (reconcile_freshFor ts S st0 a.id (validIds_mem ha hav)).1
    have hM := upsert_fold_all_exist ts2 S (reconcile ts S st0).1 0 0 hex
    have hM1 := upsert_fold_all_exist ts S (reconcile ts S st0).1 0 0 hex
    have hcnt := upsert_fold_count ts S (st0, 0, 0)
    have hfix : ∀ p ∈ (reconcile ts S st0).1, applyUpd ts S p = p := by
      intro p hp
      rw [reconcile_eq_arch ts S st0 hv] at hp
      obtain ⟨q, hq, hqp⟩ := List.mem_map.mp hp
      by_cases hc : q.id ∈ validIds S ∨ q.archived = true
      · have hfixq : archiveF ts (validIds S) q = q := by
          rcases hc with h1 | h2
          · exact archiveF_fix_active h1
          · exact archiveF_fix_archived h2
        rw [← hqp, hfixq]
        exact applyUpd_fold_fix ts S (st0, 0, 0) q hq
      · push_neg at hc
        have hpq : p = { q with archived := true, last_seen := ts } := by
          rw [← hqp]
          simp [archiveF, hc.1, hc.2]
        have hpid : p.id ∉ validIds S := by rw [hpq]; exact hc.1
        exact applyUpd_not_mem ts S p hpid
    have hmap1 : (reconcile ts S st0).1.map (applyUpd ts S)
        = (reconcile ts S st0).1 := by
      have h2 : (reconcile ts S st0).1.map (applyUpd ts S)
          = (reconcile ts S st0).1.map id :=
        List.map_congr_left fun p hp => hfix p hp
      rw [h2, List.map_id]
    have harch : ∀ p ∈ (reconcile ts S st0).1,
        archiveF ts (validIds S) p = p := by
      intro p hp
      by_cases hm : p.id ∈ validIds S
      · exact archiveF_fix_active hm
      · exact archiveF_fix_archived
          (reconcile_missing_archived ts S st0 p hv hp hm)
    refine ⟨?_, ?_, ?_⟩
    · rw [reconcile_eq_arch ts2 S _ hv, hM]
    · rw [reconcile_eq_arch ts2 S _ hv, hM,
        reconcile_eq_arch ts S st0 hv]
      simp only at hcnt ⊢
      omega
    · rw [reconcile_eq_arch ts S _ hv, hM1, hmap1]
      have h3 : (reconcile ts S st0).1.map (archiveF ts (validIds S))
          = (reconcile ts S st0).1.map id :=
        List.map_congr_left fun p hp => harch p hp
      rw [h3, List.map_id]

/-- Witness for the amended claim C7 on the spec's concrete scenario. -/
theorem c7_idempotence_amended_witness :
    (reconcile 4 [aRex, aMia] (reconcile 4 [aRex, aMia] []).1).2.1 = 0 ∧
      (reconcile 4 [aRex, aMia] (reconcile 4 [aRex, aMia] []).1).2.2.1
          = (reconcile 4 [aRex, aMia] []).2.1
              + (reconcile 4 [aRex, aMia] []).2.2.1 ∧
      (reconcile 4 [aRex, aMia] (reconcile 4 [aRex, aMia] []).1).1
          = (reconcile 4 [aRex, aMia] []).1 :=
  c7_idempotence_amended 4 4 [aRex, aMia] [] (by decide)

/-- Claim C5, counterexample: the all-pass query does not order names
case-insensitively.  `ORDER BY name ASC` uses the BINARY collation, so for
the two unarchived rows named `apple` and `Banana` the query returns
`Banana` first (`B` < `a` by code point), while case-insensitive
alphabetical order demands `apple` first — the claimed ordering property
fails on this two-row store. -/
theorem c5_filter_determinism_counterexample :
    ¬ claimC5Output [pApple, pBanana] := by
  intro h
  have hout : fetch_filtered_pets_from_db "" "All" "All" "All"
      [pApple, pBanana] = [pBanana, pApple] := by decide
  have hchain := h.2.2.2
  rw [hout] at hchain
  exact absurd (List.chain'_cons.mp hchain).1 (by decide)

/-- Claim C5, amended: the query with empty search and all filters at `All`
returns every record (the output is a permutation of the store) sorted by
`(archived ascending, name ascending)`, where names compare with the
case-SENSITIVE BINARY collation (code-point order, SQL NULLs first) — not
case-insensitively. -/
theorem c5_filter_determinism_amended (st : List Pet) :
    List.Perm (fetch_filtered_pets_from_db "" "All" "All" "All" st) st ∧
      List.Sorted (fun p q => petLeB p q = true)
        (fetch_filtered_pets_from_db "" "All" "All" "All" st) := by
  have hfilter : st.filter (rowMatches "" "All" "All" "All") = st :=
    List.filter_eq_self.mpr fun p _ => rowMatches_all p
  constructor
  · rw [fetch_filtered_pets_from_db, hfilter]
    exact List.perm_insertionSort _ st
  · rw [fetch_filtered_pets_from_db, hfilter]
    haveI : IsTotal Pet (fun p q => petLeB p q = true) := ⟨petLeB_total⟩
    haveI : IsTrans Pet (fun p q => petLeB p q = true) := ⟨petLeB_trans⟩
    exact List.sorted_insertionSort _ st

/-- Claim C3, counterexample: when the database sync succeeds and the
mirror push fails, the code records NEITHER timestamp (the claim says the
full-sync timestamp is still recorded): the saves are guarded by
`db_sync_ok and gsheet_update_ok` (line 638).  Concretely, after a run with
a failing push, `last_successful_sync_all` is still `N/A`, not the run's
time string `T1`. -/
theorem c3_timestamps_counterexample :
    (perform_sync_and_update_all 0 "T1" [aRex] [] PushOutcome.failure []
        cfg0 []).db_sync_ok = true ∧
      (perform_sync_and_update_all 0 "T1" [aRex] [] PushOutcome.failure []
          cfg0 []).gsheet_update_ok = false ∧
      (perform_sync_and_update_all 0 "T1" [aRex] [] PushOutcome.failure []
          cfg0 []).settings.last_successful_sync_all ≠ "T1" := by decide

/-- Claim C3, amended: on full success both last-success timestamps are
recorded; when the fetch/reconciliation fails, the settings are untouched;
and when the reconciliation succeeds but the mirror push fails, the
settings are also untouched — neither timestamp (not even the full-sync
one) is recorded. -/
theorem c3_timestamps_amended (ts : Nat) (t : String)
    (fetch1 fetch2 : List Animal) (api : PushOutcome) (st : List Pet)
    (cfg : AppSettings) (sheet : List (List String)) :
    ((perform_sync_and_update_all ts t fetch1 fetch2 api st cfg
            sheet).db_sync_ok = true ∧
        (perform_sync_and_update_all ts t fetch1 fetch2 api st cfg
            sheet).gsheet_update_ok = true →
      (perform_sync_and_update_all ts t fetch1 fetch2 api st cfg
            sheet).settings.last_successful_sync_all = t ∧
        (perform_sync_and_update_all ts t fetch1 fetch2 api st cfg
            sheet).settings.last_successful_gsheet_update = t) ∧
      ((perform_sync_and_update_all ts t fetch1 fetch2 api st cfg
            sheet).db_sync_ok = false →
        (perform_sync_and_update_all ts t fetch1 fetch2 api st cfg
            sheet).settings = cfg) ∧
      ((perform_sync_and_update_all ts t fetch1 fetch2 api st cfg
            sheet).db_sync_ok = true ∧
        (perform_sync_and_update_all ts t fetch1 fetch2 api st cfg
            sheet).gsheet_update_ok = false →
        (perform_sync_and_update_all ts t fetch1 fetch2 api st cfg
            sheet).settings = cfg) := by
  rcases hsd : sync_database ts fetch1 fetch2 st with ⟨st1, res⟩
  rcases res with e | c
  · simp [perform_sync_and_update_all, hsd]
  · simp only [perform_sync_and_update_all, hsd]
    by_cases hall :
        (fetch_filtered_pets_from_db "" "All" "All" "All" st1).isEmpty
    · simp [hall, saveBoth]
    · simp only [hall, Bool.false_eq_true, if_false]
      by_cases hsend : (pets_to_send cfg
          (fetch_filtered_pets_from_db "" "All" "All" "All" st1)).isEmpty
      · simp [hsend, saveBoth]
      · simp only [hsend, Bool.false_eq_true, if_false]
        cases hok : (update_google_sheet api
            (pets_to_send cfg
              (fetch_filtered_pets_from_db "" "All" "All" "All" st1))
            sheet).1
        · simp [hok]
        · simp [hok, saveBoth]

/-- Witness for the amended claim C3 on a fully successful concrete run:
both timestamps are recorded. -/
theorem c3_timestamps_amended_witness :
    ((perform_sync_and_update_all 0 "T1" [aRex] [] PushOutcome.success []
          cfg0 []).db_sync_ok = true ∧
        (perform_sync_and_update_all 0 "T1" [aRex] [] PushOutcome.success []
            cfg0 []).gsheet_update_ok = true) ∧
      ((perform_sync_and_update_all 0 "T1" [aRex] [] PushOutcome.success []
            cfg0 []).settings.last_successful_sync_all = "T1" ∧
        (perform_sync_and_update_all 0 "T1" [aRex] [] PushOutcome.success []
            cfg0 []).settings.last_successful_gsheet_update = "T1") :=
  ⟨by decide,
    (c3_timestamps_amended 0 "T1" [aRex] [] PushOutcome.success []
        cfg0 []).1 (by decide)⟩

/-- Claim C4, counterexample: the state reached by clicking
`Start Auto Sync` and then, while the initial run is still in flight,
`Stop Auto Sync`, has one run in flight yet the `Manual Sync All` button
re-enabled (`stop_auto_sync`'s `finally` re-enables the buttons without
checking for in-flight work); clicking it starts a second concurrent run
instead of being rejected. -/
theorem c4_mutual_exclusion_counterexample :
    (runEvents initState
        [GuiEvent.clickStart, GuiEvent.clickStop]).runs_in_flight = 1 ∧
      (runEvents initState
          [GuiEvent.clickStart, GuiEvent.clickStop]).btn_manual_enabled
        = true ∧
      (guiStep (runEvents initState
          [GuiEvent.clickStart, GuiEvent.clickStop])
          GuiEvent.clickManual).runs_in_flight = 2 := by decide

/-- Claim C4, amended: a manual-sync click is a no-op exactly when the
`Manual Sync All` button is disabled — which holds right after a trigger and
while auto-sync is on, but can be undone mid-run by `Stop Auto Sync` — and
`start_auto_sync` is a no-op while `sync_running` is already set.  The
orchestrator has no state flag that rejects a manual trigger while a run is
in flight. -/
theorem c4_mutual_exclusion_amended (s : GuiState) :
    (s.btn_manual_enabled = false → guiStep s GuiEvent.clickManual = s) ∧
      (s.sync_running = true → guiStep s GuiEvent.clickStart = s) := by
  constructor
  · intro h
    simp [guiStep, h]
  · intro h
    by_cases hb : s.btn_start_enabled
    · simp [guiStep, hb, start_auto_sync, h]
    · simp [guiStep, hb]

/-- Witness for the amended claim C4: right after `Start Auto Sync` the
manual button is disabled and a manual click changes nothing. -/
theorem c4_mutual_exclusion_amended_witness :
    (runEvents initState [GuiEvent.clickStart]).btn_manual_enabled
        = false ∧
      guiStep (runEvents initState [GuiEvent.clickStart])
          GuiEvent.clickManual
        = runEvents initState [GuiEvent.clickStart] :=
  ⟨by decide,
    (c4_mutual_exclusion_amended
        (runEvents initState [GuiEvent.clickStart])).1 (by decide)⟩

/-- Claim C10 (confirmed): when the list of rows selected for the mirror is
empty — the store is empty, or the include-archived setting filtered every
row out — the mirror step reports success without calling the sheet API, so
the destination keeps whatever rows it held from the previous push. -/
theorem c10_empty_mirror_skip (ts : Nat) (t : String)
    (fetch1 fetch2 : List Animal) (api : PushOutcome) (st : List Pet)
    (cfg : AppSettings) (sheet : List (List String))
    (hne : fetched fetch1 fetch2 ≠ [])
    (hempty : pets_to_send cfg
        (fetch_filtered_pets_from_db "" "All" "All" "All"
          (sync_database ts fetch1 fetch2 st).1) = []) :
    (perform_sync_and_update_all ts t fetch1 fetch2 api st cfg
        sheet).gsheet_update_ok = true ∧
      (perform_sync_and_update_all ts t fetch1 fetch2 api st cfg
          sheet).sheet = sheet := by
  have hok := sync_database_ok ts fetch1 fetch2 st hne
  rw [hok] at hempty
  simp only [perform_sync_and_update_all, hok]
  by_cases hall : (fetch_filtered_pets_from_db "" "All" "All" "All"
      (reconcile ts (fetched fetch1 fetch2) st).1).isEmpty
  · simp [hall]
  · simp [hall, List.isEmpty_iff.mpr hempty]

/-- Witness for claim C10: a run whose snapshot has only an id-less item
leaves the archived-only store as is; with archived rows excluded from the
mirror, nothing is pushed, the step succeeds and the destination sheet
keeps its old row. -/
theorem c10_empty_mirror_skip_witness :
    (fetched [aNoId] [] ≠ [] ∧
        pets_to_send cfgNoArch
          (fetch_filtered_pets_from_db "" "All" "All" "All"
            (sync_database 3 [aNoId] [] [pZ]).1) = []) ∧
      ((perform_sync_and_update_all 3 "T2" [aNoId] [] PushOutcome.success
            [pZ] cfgNoArch [["old"]]).gsheet_update_ok = true ∧
        (perform_sync_and_update_all 3 "T2" [aNoId] [] PushOutcome.success
            [pZ] cfgNoArch [["old"]]).sheet = [["old"]]) :=
  ⟨⟨by decide, by decide⟩,
    c10_empty_mirror_skip 3 "T2" [aNoId] [] PushOutcome.success [pZ]
      cfgNoArch [["old"]] (by decide) (by decide)⟩

end PetSync
